import Mathlib

/-!
Verification of the bot-fleet supervisor in `backend/bot_manager.py`.

The embedding follows the source closely:
* `UserRec` models a row of the `users` table (`backend/models.py`): only the
  columns read by `bot_manager.py` are kept (`id`, `tg_bot_token`,
  `system_prompt`); `id` is the primary key, so a well-formed table has
  pairwise-distinct ids.
* `BotThread` models the per-tenant worker thread: its `token` and `user_id`
  constructor arguments, plus an `alive` flag recording whether the underlying
  OS thread is still running (the source never reads this flag during
  reconciliation, which is exactly what some theorems below are about).
* Python dicts (`user_tokens`, `self.bots`) are modelled as association lists
  with first-match lookup (`dictGet`); the dict built by the comprehension
  `{user.id: user.tg_bot_token for user in users}` has unique keys because
  `User.id` is a primary key, which appears as `Nodup` hypotheses.
* `update_bots` returns, besides the new registry, the lists of tenant ids it
  stopped and started this cycle (the ids the source logs and calls
  `.stop()`/`.start()` for), so that start/stop behaviour is observable.
-/

namespace YagptBot

/-- A row of the `users` table, restricted to the columns `bot_manager.py`
reads. `tg_bot_token` and `system_prompt` are nullable columns. -/
structure UserRec where
  id : Nat
  tg_bot_token : Option String
  system_prompt : Option String
  deriving DecidableEq, Repr

/-- The state of a `BotThread` visible to the manager: the `token` and
`user_id` it was constructed with, and whether its OS thread is still
running (`alive`). The source constructor sets `token` and `user_id`;
`Thread.start()` makes the thread alive. -/
structure BotThread where
  token : String
  user_id : Nat
  alive : Bool
  deriving DecidableEq, Repr

/-- First-match lookup in an association list; on a list with `Nodup` keys
this is exactly Python dict lookup. -/
def dictGet {α : Type} : Nat → List (Nat × α) → Option α
  | _, [] => none
  | k, p :: rest => if k = p.1 then some p.2 else dictGet k rest

/-- The SQL filter `tg_bot_token != None, tg_bot_token != ''` applied to one
row: the token column is non-null and non-empty. -/
def tokenActive : Option String → Bool
  | none => false
  | some s => if s = "" then false else true

/-- `user_tokens = {user.id: user.tg_bot_token for user in users}` where
`users` is the query result filtered on an active token
(`bot_manager.py` line 110–111). -/
def user_tokens (users : List UserRec) : List (Nat × String) :=
  (users.filter fun u => tokenActive u.tg_bot_token).map
    fun u => (u.id, u.tg_bot_token.getD "")

/-- The second loop of `update_bots` (lines 122–127): for each
`(user_id, token)` in `user_tokens`, if `user_id` is not in the (mutating)
registry, construct `BotThread(token, user_id)`, start it and insert it.
Returns the final registry and the list of started tenant ids. -/
def startBots : List (Nat × BotThread) → List (Nat × String) →
    List (Nat × BotThread) × List Nat
  | bots, [] => (bots, [])
  | bots, (uid, tok) :: rest =>
    if (dictGet uid bots).isSome then startBots bots rest
    else
      let r := startBots (bots ++ [(uid, ⟨tok, uid, true⟩)]) rest
      (r.1, uid :: r.2)

/-- `BotManager.update_bots` (lines 107–129). The first loop (lines 114–119)
stops and deletes every registry entry whose tenant is absent from
`user_tokens` or whose stored token differs; the second loop starts bots for
the remaining desired tenants. Returns
`(new registry, stopped tenant ids, started tenant ids)`. -/
def update_bots (bots : List (Nat × BotThread)) (users : List UserRec) :
    List (Nat × BotThread) × List Nat × List Nat :=
  let tokens := user_tokens users
  let kept := bots.filter fun p => decide (dictGet p.1 tokens = some p.2.token)
  let stopped :=
    (bots.filter fun p => !decide (dictGet p.1 tokens = some p.2.token)).map Prod.fst
  let r := startBots kept tokens
  (r.1, stopped, r.2)

/-- The fixed degraded-answer string returned by `get_yandex_gpt_response`
when the completion call fails (line 47). -/
def degradedAnswer : String := "Извините, произошла ошибка при генерации ответа."

/-- The fixed reply sent when no system prompt is configured (line 71). -/
def notConfiguredMsg : String := "Извините, системный промпт не настроен."

/-- `get_yandex_gpt_response(prompt, system_prompt)` (lines 17–47). The HTTP
request plus JSON extraction is abstracted as an oracle `api` returning either
the completion text or an error; the source wraps the whole body in
`try/except Exception` and returns the fixed degraded string on any error, so
the wrapper always returns a string. -/
def get_yandex_gpt_response (api : String → String → Except String String)
    (prompt system_prompt : String) : String :=
  match api prompt system_prompt with
  | Except.ok text => text
  | Except.error _ => degradedAnswer

/-- An inbound Telegram message: its optional text payload. -/
structure TgMessage where
  text : Option String
  deriving DecidableEq, Repr

/-- An inbound Telegram update: its optional message. -/
structure TgUpdate where
  message : Option TgMessage
  deriving DecidableEq, Repr

/-- The observable effects of one `handle_message` call: the list of
`(prompt, system_prompt)` arguments passed to the completion collaborator and
the list of reply texts sent. -/
structure MsgResult where
  completionCalls : List (String × String)
  replies : List String
  deriving DecidableEq, Repr

/-- `BotThread.handle_message` (lines 58–73). Returns without effect when the
update has no message or no (non-empty) text — Python `not update.message.text`
is true for the empty string. Otherwise it fetches the user row fresh from the
database (`db.query(User).filter(User.id == self.user_id).first()`); if a row
exists and its `system_prompt` is set it makes exactly one completion call and
sends its result, otherwise it sends the fixed not-configured reply. -/
def handle_message (db : List UserRec) (api : String → String → Except String String)
    (self_user_id : Nat) (upd : TgUpdate) : MsgResult :=
  match upd.message with
  | none => ⟨[], []⟩
  | some m =>
    match m.text with
    | none => ⟨[], []⟩
    | some t =>
      if t = "" then ⟨[], []⟩
      else
        match db.find? fun u => u.id == self_user_id with
        | some user =>
          match user.system_prompt with
          | some sp => ⟨[(t, sp)], [get_yandex_gpt_response api t sp]⟩
          | none => ⟨[], [notConfiguredMsg]⟩
        | none => ⟨[], [notConfiguredMsg]⟩

/-- The worker's receive loop dispatching a sequence of inbound updates to
`handle_message` one at a time (the `run_polling` dispatch on line 81/84):
every update is handled, because `handle_message` is total — its only fallible
call is wrapped in `try/except` inside `get_yandex_gpt_response`. -/
def processUpdates (db : List UserRec) (api : String → String → Except String String)
    (self_user_id : Nat) (updates : List TgUpdate) : List MsgResult :=
  updates.map (handle_message db api self_user_id)

/-- An observable effect of `BotThread.run` after its polling loop exits. -/
inductive RunEvent
  | log : String → RunEvent
  | notifySupervisor : Nat → RunEvent
  deriving DecidableEq, Repr

/-- What `BotThread.run` (lines 75–88) does when `run_polling` terminates:
on an exception it logs `"Ошибка в боте {user_id}: …"` and the thread exits;
it performs no other action — in particular nothing is sent to the manager. -/
def runExitEvents (user_id : Nat) (pollingOutcome : Except String Unit) :
    List RunEvent :=
  match pollingOutcome with
  | Except.ok _ => []
  | Except.error e => [RunEvent.log ("Ошибка в боте " ++ toString user_id ++ ": " ++ e)]

/-- The first loop of `update_bots` with the blocking `join()` modelled
(lines 114–119: `self.bots[user_id].stop(); self.bots[user_id].join();
del self.bots[user_id]` — `join` is called with NO timeout argument, so it
returns only if the worker thread terminates). `joins uid = false` means
tenant `uid`'s thread never terminates; the loop then blocks forever, which
the model expresses as `none`. Returns the kept entries and stopped ids
otherwise. -/
def stopLoop (joins : Nat → Bool) (tokens : List (Nat × String)) :
    List (Nat × BotThread) → Option (List (Nat × BotThread) × List Nat)
  | [] => some ([], [])
  | p :: rest =>
    if dictGet p.1 tokens = some p.2.token then
      (stopLoop joins tokens rest).map fun r => (p :: r.1, r.2)
    else if joins p.1 then
      (stopLoop joins tokens rest).map fun r => (r.1, p.1 :: r.2)
    else none

/-- `update_bots` with the blocking join modelled: `none` when some stopped
worker's thread never terminates (the cycle never completes), otherwise the
same result as `update_bots`. -/
def update_botsJ (joins : Nat → Bool) (bots : List (Nat × BotThread))
    (users : List UserRec) :
    Option (List (Nat × BotThread) × List Nat × List Nat) :=
  let tokens := user_tokens users
  match stopLoop joins tokens bots with
  | none => none
  | some (kept, stopped) =>
    let r := startBots kept tokens
    some (r.1, stopped, r.2)

/-- `BotManager.run` (lines 131–134): `while True: self.update_bots();
time.sleep(10)`. Given the duration `d n` of cycle `n`'s `update_bots` call,
`cycleStart d n` is the start time of cycle `n`: each cycle starts 10 time
units after the previous cycle ends. -/
def cycleStart (d : Nat → Nat) : Nat → Nat
  | 0 => 0
  | n + 1 => cycleStart d n + d n + 10

/-! ### Association-list lemmas -/

theorem dictGet_isSome_iff {α : Type} (k : Nat) (l : List (Nat × α)) :
    (dictGet k l).isSome = true ↔ k ∈ l.map Prod.fst := by
  induction l with
  | nil => simp [dictGet]
  | cons p rest ih =>
    simp only [dictGet, List.map_cons, List.mem_cons]
    by_cases h : k = p.1 <;> simp [h, ih]

theorem dictGet_eq_none_iff {α : Type} (k : Nat) (l : List (Nat × α)) :
    dictGet k l = none ↔ k ∉ l.map Prod.fst := by
  rw [← dictGet_isSome_iff]
  cases dictGet k l <;> simp

theorem dictGet_mem {α : Type} {k : Nat} {v : α} {l : List (Nat × α)}
    (h : dictGet k l = some v) : (k, v) ∈ l := by
  induction l with
  | nil => simp [dictGet] at h
  | cons p rest ih =>
    simp only [dictGet] at h
    by_cases hk : k = p.1
    · rw [if_pos hk] at h
      obtain ⟨a, b⟩ := p
      cases h
      simp at hk
      subst hk
      exact List.mem_cons_self _ _
    · rw [if_neg hk] at h
      exact List.mem_cons_of_mem _ (ih h)

theorem dictGet_of_mem_nodup {α : Type} {k : Nat} {v : α} {l : List (Nat × α)}
    (hnd : (l.map Prod.fst).Nodup) (hm : (k, v) ∈ l) : dictGet k l = some v := by
  induction l with
  | nil => simp at hm
  | cons p rest ih =>
    simp only [List.map_cons, List.nodup_cons] at hnd
    rcases List.mem_cons.mp hm with h | h
    · rw [← h]
      simp [dictGet]
    · have hk : k ≠ p.1 := by
        intro hkp
        exact hnd.1 (hkp ▸ List.mem_map.mpr ⟨(k, v), h, rfl⟩)
      simp only [dictGet, if_neg hk]
      exact ih hnd.2 h

theorem mem_keys_iff {α : Type} (uid : Nat) (l : List (Nat × α)) :
    uid ∈ l.map Prod.fst ↔ ∃ v, (uid, v) ∈ l := by
  constructor
  · intro h
    obtain ⟨⟨a, b⟩, hm, he⟩ := List.mem_map.mp h
    exact ⟨b, by simpa [← he] using hm⟩
  · rintro ⟨v, hm⟩
    exact List.mem_map.mpr ⟨(uid, v), hm, rfl⟩

/-! ### `startBots` lemmas -/

theorem startBots_nil (bots : List (Nat × BotThread)) :
    startBots bots [] = (bots, []) := rfl

theorem startBots_cons_present (bots : List (Nat × BotThread)) (k : Nat) (tok : String)
    (rest : List (Nat × String)) (h : (dictGet k bots).isSome) :
    startBots bots ((k, tok) :: rest) = startBots bots rest := by
  simp [startBots, h]

theorem startBots_cons_absent (bots : List (Nat × BotThread)) (k : Nat) (tok : String)
    (rest : List (Nat × String)) (h : ¬ (dictGet k bots).isSome = true) :
    startBots bots ((k, tok) :: rest) =
      ((startBots (bots ++ [(k, ⟨tok, k, true⟩)]) rest).1,
       k :: (startBots (bots ++ [(k, ⟨tok, k, true⟩)]) rest).2) := by
  simp [startBots, h]

theorem startBots_keys (tokens : List (Nat × String)) :
    ∀ (bots : List (Nat × BotThread)) (uid : Nat),
      uid ∈ (startBots bots tokens).1.map Prod.fst ↔
        uid ∈ bots.map Prod.fst ∨ uid ∈ tokens.map Prod.fst := by
  induction tokens with
  | nil => intro bots uid; simp [startBots_nil]
  | cons q rest ih =>
    intro bots uid
    obtain ⟨k, tok⟩ := q
    by_cases h : (dictGet k bots).isSome
    · rw [startBots_cons_present bots k tok rest h, ih]
      have hk : k ∈ bots.map Prod.fst := (dictGet_isSome_iff k bots).mp h
      simp only [List.map_cons, List.mem_cons]
      constructor
      · tauto
      · rintro (hb | hu | hr)
        · exact Or.inl hb
        · exact Or.inl (hu ▸ hk)
        · exact Or.inr hr
    · rw [startBots_cons_absent bots k tok rest h, ih]
      simp only [List.map_append, List.map_cons, List.mem_append, List.map_nil,
        List.mem_cons, List.mem_singleton, List.not_mem_nil, or_false]
      tauto

theorem startBots_entry (tokens : List (Nat × String)) :
    ∀ (bots : List (Nat × BotThread)) (p : Nat × BotThread),
      p ∈ (startBots bots tokens).1 →
        p ∈ bots ∨ ∃ q ∈ tokens, p = (q.1, ⟨q.2, q.1, true⟩) := by
  induction tokens with
  | nil => intro bots p hp; exact Or.inl (by simpa [startBots_nil] using hp)
  | cons q rest ih =>
    intro bots p hp
    obtain ⟨k, tok⟩ := q
    by_cases h : (dictGet k bots).isSome
    · rw [startBots_cons_present bots k tok rest h] at hp
      rcases ih bots p hp with hb | ⟨q', hq', he⟩
      · exact Or.inl hb
      · exact Or.inr ⟨q', List.mem_cons_of_mem _ hq', he⟩
    · rw [startBots_cons_absent bots k tok rest h] at hp
      rcases ih _ p hp with hb | ⟨q', hq', he⟩
      · rcases List.mem_append.mp hb with hb | hb
        · exact Or.inl hb
        · refine Or.inr ⟨(k, tok), List.mem_cons_self _ _, ?_⟩
          simpa using hb
      · exact Or.inr ⟨q', List.mem_cons_of_mem _ hq', he⟩

theorem startBots_prefix (tokens : List (Nat × String)) :
    ∀ bots : List (Nat × BotThread),
      ∃ tail, (startBots bots tokens).1 = bots ++ tail := by
  induction tokens with
  | nil => intro bots; exact ⟨[], by simp [startBots_nil]⟩
  | cons q rest ih =>
    intro bots
    obtain ⟨k, tok⟩ := q
    by_cases h : (dictGet k bots).isSome
    · rw [startBots_cons_present bots k tok rest h]; exact ih bots
    · rw [startBots_cons_absent bots k tok rest h]
      obtain ⟨tail, ht⟩ := ih (bots ++ [(k, ⟨tok, k, true⟩)])
      exact ⟨(k, ⟨tok, k, true⟩) :: tail, by simp [ht]⟩

theorem startBots_started (tokens : List (Nat × String)) :
    ∀ (bots : List (Nat × BotThread)) (uid : Nat),
      uid ∈ (startBots bots tokens).2 ↔
        uid ∉ bots.map Prod.fst ∧ uid ∈ tokens.map Prod.fst := by
  induction tokens with
  | nil => intro bots uid; simp [startBots_nil]
  | cons q rest ih =>
    intro bots uid
    obtain ⟨k, tok⟩ := q
    have hmem : ∀ u : Nat, u ∈ ((k, tok) :: rest).map Prod.fst ↔ u = k ∨ u ∈ rest.map Prod.fst := by
      intro u; simp
    by_cases h : (dictGet k bots).isSome
    · rw [startBots_cons_present bots k tok rest h, ih]
      have hk : k ∈ bots.map Prod.fst := (dictGet_isSome_iff k bots).mp h
      rw [hmem]
      constructor
      · rintro ⟨hnb, hr⟩; exact ⟨hnb, Or.inr hr⟩
      · rintro ⟨hnb, hu | hr⟩
        · exact absurd (hu ▸ hk) hnb
        · exact ⟨hnb, hr⟩
    · have hk : k ∉ bots.map Prod.fst := fun hc =>
        h ((dictGet_isSome_iff k bots).mpr hc)
      rw [startBots_cons_absent bots k tok rest h]
      simp only [List.mem_cons]
      rw [ih, hmem]
      constructor
      · rintro (hu | ⟨hnb, hr⟩)
        · exact ⟨hu ▸ hk, Or.inl hu⟩
        · refine ⟨fun hc => hnb ?_, Or.inr hr⟩
          simp [hc]
      · rintro ⟨hnb, hu | hr⟩
        · exact Or.inl hu
        · by_cases huk : uid = k
          · exact Or.inl huk
          · refine Or.inr ⟨fun hc => ?_, hr⟩
            simp only [List.map_append, List.mem_append, List.map_cons, List.map_nil] at hc
            rcases hc with hc | hc
            · exact hnb hc
            · simp at hc; exact huk hc

theorem startBots_fixed (tokens : List (Nat × String)) :
    ∀ bots : List (Nat × BotThread),
      (∀ k ∈ tokens.map Prod.fst, k ∈ bots.map Prod.fst) →
      startBots bots tokens = (bots, []) := by
  induction tokens with
  | nil => intro bots _; exact startBots_nil bots
  | cons q rest ih =>
    intro bots hall
    obtain ⟨k, tok⟩ := q
    have hk : (dictGet k bots).isSome :=
      (dictGet_isSome_iff k bots).mpr (hall k (by simp))
    rw [startBots_cons_present bots k tok rest hk]
    exact ih bots fun u hu => hall u (by simp [hu])

/-! ### `update_bots` characterization -/

theorem update_bots_def (bots : List (Nat × BotThread)) (users : List UserRec) :
    update_bots bots users =
      ((startBots
          (bots.filter fun p => decide (dictGet p.1 (user_tokens users) = some p.2.token))
          (user_tokens users)).1,
       (bots.filter fun p => !decide (dictGet p.1 (user_tokens users) = some p.2.token)).map
         Prod.fst,
       (startBots
          (bots.filter fun p => decide (dictGet p.1 (user_tokens users) = some p.2.token))
          (user_tokens users)).2) := rfl

theorem mem_kept_keys_iff (bots : List (Nat × BotThread)) (tokens : List (Nat × String))
    (uid : Nat) :
    uid ∈ (bots.filter fun p => decide (dictGet p.1 tokens = some p.2.token)).map Prod.fst ↔
      ∃ bt, (uid, bt) ∈ bots ∧ dictGet uid tokens = some bt.token := by
  rw [mem_keys_iff]
  constructor
  · rintro ⟨bt, hm⟩
    have h := List.mem_filter.mp hm
    exact ⟨bt, h.1, by simpa using h.2⟩
  · rintro ⟨bt, hm, hc⟩
    exact ⟨bt, List.mem_filter.mpr ⟨hm, by simpa using hc⟩⟩

theorem update_bots_keys (bots : List (Nat × BotThread)) (users : List UserRec) (uid : Nat) :
    uid ∈ (update_bots bots users).1.map Prod.fst ↔
      uid ∈ (user_tokens users).map Prod.fst := by
  rw [update_bots_def]
  dsimp only
  rw [startBots_keys]
  constructor
  · rintro (hk | ht)
    · obtain ⟨bt, hbt, hc⟩ := (mem_kept_keys_iff bots (user_tokens users) uid).mp hk
      exact (dictGet_isSome_iff uid (user_tokens users)).mp (by simp [hc])
    · exact ht
  · intro ht
    exact Or.inr ht

theorem update_bots_tokens (bots : List (Nat × BotThread)) (users : List UserRec)
    (hnd : ((user_tokens users).map Prod.fst).Nodup) :
    ∀ p ∈ (update_bots bots users).1,
      dictGet p.1 (user_tokens users) = some p.2.token := by
  rw [update_bots_def]
  intro p hp
  rcases startBots_entry (user_tokens users) _ p hp with hk | ⟨q, hq, he⟩
  · have h := (List.mem_filter.mp hk).2
    simpa using h
  · rw [he]
    exact dictGet_of_mem_nodup hnd (by simpa using hq)

theorem mem_stopped_iff (bots : List (Nat × BotThread)) (users : List UserRec) (uid : Nat) :
    uid ∈ (update_bots bots users).2.1 ↔
      ∃ bt, (uid, bt) ∈ bots ∧ ¬ dictGet uid (user_tokens users) = some bt.token := by
  rw [update_bots_def]
  dsimp only
  rw [mem_keys_iff]
  constructor
  · rintro ⟨bt, hm⟩
    have h := List.mem_filter.mp hm
    exact ⟨bt, h.1, by simpa using h.2⟩
  · rintro ⟨bt, hm, hne⟩
    exact ⟨bt, List.mem_filter.mpr ⟨hm, by simpa using hne⟩⟩

theorem mem_started_iff (bots : List (Nat × BotThread)) (users : List UserRec) (uid : Nat) :
    uid ∈ (update_bots bots users).2.2 ↔
      (¬ ∃ bt, (uid, bt) ∈ bots ∧ dictGet uid (user_tokens users) = some bt.token) ∧
      uid ∈ (user_tokens users).map Prod.fst := by
  rw [update_bots_def]
  dsimp only
  rw [startBots_started, mem_kept_keys_iff]

theorem update_bots_mem_kept (bots : List (Nat × BotThread)) (users : List UserRec)
    (uid : Nat) (bt : BotThread) (hmem : (uid, bt) ∈ bots)
    (htok : dictGet uid (user_tokens users) = some bt.token) :
    (uid, bt) ∈ (update_bots bots users).1 := by
  rw [update_bots_def]
  dsimp only
  obtain ⟨tail, ht⟩ := startBots_prefix (user_tokens users)
    (bots.filter fun p => decide (dictGet p.1 (user_tokens users) = some p.2.token))
  rw [ht]
  exact List.mem_append_left _ (List.mem_filter.mpr ⟨hmem, by simpa using htok⟩)

theorem update_bots_stable (bots : List (Nat × BotThread)) (users : List UserRec)
    (htok : ∀ p ∈ bots, dictGet p.1 (user_tokens users) = some p.2.token)
    (hkeys : ∀ k ∈ (user_tokens users).map Prod.fst, k ∈ bots.map Prod.fst) :
    update_bots bots users = (bots, [], []) := by
  rw [update_bots_def]
  have hfilter :
      bots.filter (fun p => decide (dictGet p.1 (user_tokens users) = some p.2.token)) = bots :=
    List.filter_eq_self.mpr fun p hp => by simpa using htok p hp
  have hfilter2 :
      (bots.filter fun p => !decide (dictGet p.1 (user_tokens users) = some p.2.token)) = [] :=
    List.filter_eq_nil_iff.mpr fun p hp => by simpa using htok p hp
  rw [hfilter, hfilter2, startBots_fixed (user_tokens users) bots hkeys]
  simp

/-! ### Claim theorems -/

/-- C1: after `update_bots` returns, the registry's set of tenant ids exactly
equals the set of tenant ids in the desired state (`user_tokens`) read at the
start of the cycle, and every stored worker's token equals that tenant's
desired token. The `Nodup` hypothesis is the primary-key property of
`User.id`. -/
theorem reconcile_registry_matches_desired (bots : List (Nat × BotThread))
    (users : List UserRec)
    (hnd : ((user_tokens users).map Prod.fst).Nodup) :
    (∀ uid, uid ∈ (update_bots bots users).1.map Prod.fst ↔
      uid ∈ (user_tokens users).map Prod.fst) ∧
    (∀ p ∈ (update_bots bots users).1,
      dictGet p.1 (user_tokens users) = some p.2.token) :=
  ⟨fun uid => update_bots_keys bots users uid, update_bots_tokens bots users hnd⟩

/-- Witness for C1 on a concrete registry and user table: tenant 1 keeps its
worker, tenant 2's worker is for the desired token, tenant 3 is gone. -/
theorem reconcile_registry_matches_desired_witness :
    ((user_tokens [⟨1, some "a", none⟩, ⟨2, some "b", none⟩]).map Prod.fst).Nodup ∧
    (3 ∈ (update_bots [(1, ⟨"a", 1, true⟩), (3, ⟨"c", 3, true⟩)]
        [⟨1, some "a", none⟩, ⟨2, some "b", none⟩]).1.map Prod.fst ↔
      3 ∈ (user_tokens [⟨1, some "a", none⟩, ⟨2, some "b", none⟩]).map Prod.fst) :=
  ⟨by decide,
   (reconcile_registry_matches_desired [(1, ⟨"a", 1, true⟩), (3, ⟨"c", 3, true⟩)]
      [⟨1, some "a", none⟩, ⟨2, some "b", none⟩] (by decide)).1 3⟩

/-- C4: running `update_bots` a second time with the desired state unchanged
performs no worker starts and no worker stops: the second run returns the same
registry with empty stopped and started lists. -/
theorem reconcile_idempotent (bots : List (Nat × BotThread)) (users : List UserRec)
    (hnd : ((user_tokens users).map Prod.fst).Nodup) :
    update_bots (update_bots bots users).1 users = ((update_bots bots users).1, [], []) := by
  apply update_bots_stable
  · exact update_bots_tokens bots users hnd
  · intro k hk
    exact (update_bots_keys bots users k).mpr hk

/-- Witness for C4 on a concrete registry and user table. -/
theorem reconcile_idempotent_witness :
    ((user_tokens [⟨1, some "a", none⟩, ⟨2, some "b", none⟩]).map Prod.fst).Nodup ∧
    update_bots (update_bots [(3, ⟨"c", 3, true⟩)]
        [⟨1, some "a", none⟩, ⟨2, some "b", none⟩]).1
        [⟨1, some "a", none⟩, ⟨2, some "b", none⟩] =
      ((update_bots [(3, ⟨"c", 3, true⟩)] [⟨1, some "a", none⟩, ⟨2, some "b", none⟩]).1,
       [], []) :=
  ⟨by decide,
   reconcile_idempotent [(3, ⟨"c", 3, true⟩)]
     [⟨1, some "a", none⟩, ⟨2, some "b", none⟩] (by decide)⟩

/-- C5: a tenant with a registry entry that is absent from the desired state
read by the cycle is stopped (its id is in the stopped list, i.e. `.stop()`
and `.join()` are called on its worker) and removed: after the cycle the
registry no longer contains it. -/
theorem removed_tenant_stopped (bots : List (Nat × BotThread)) (users : List UserRec)
    (T : Nat) (bt : BotThread) (hmem : (T, bt) ∈ bots)
    (habs : dictGet T (user_tokens users) = none) :
    T ∈ (update_bots bots users).2.1 ∧
    T ∉ (update_bots bots users).1.map Prod.fst := by
  constructor
  · exact (mem_stopped_iff bots users T).mpr ⟨bt, hmem, by simp [habs]⟩
  · rw [update_bots_keys]
    exact (dictGet_eq_none_iff T (user_tokens users)).mp habs

/-- Witness for C5: tenant 3 has a worker but is absent from the desired
state; the cycle stops it and drops it from the registry. -/
theorem removed_tenant_stopped_witness :
    ((3, (⟨"c", 3, true⟩ : BotThread)) ∈ [(3, (⟨"c", 3, true⟩ : BotThread))] ∧
      dictGet 3 (user_tokens [⟨1, some "a", none⟩]) = none) ∧
    (3 ∈ (update_bots [(3, ⟨"c", 3, true⟩)] [⟨1, some "a", none⟩]).2.1 ∧
      3 ∉ (update_bots [(3, ⟨"c", 3, true⟩)] [⟨1, some "a", none⟩]).1.map Prod.fst) :=
  ⟨⟨by decide, by decide⟩,
   removed_tenant_stopped [(3, ⟨"c", 3, true⟩)] [⟨1, some "a", none⟩] 3
     ⟨"c", 3, true⟩ (by decide) (by decide)⟩

/-- C2: if tenant `T` is desired in two consecutive cycles with different
tokens, the second cycle stops `T`'s old worker (its id is in the stopped
list, so the entry is deleted), starts a new worker for `T` in that same
cycle, and every `T` entry of the resulting registry carries the new desired
token. -/
theorem token_change_restart (bots0 : List (Nat × BotThread)) (users1 users2 : List UserRec)
    (T : Nat) (tok1 tok2 : String)
    (hnd1 : ((user_tokens users1).map Prod.fst).Nodup)
    (hnd2 : ((user_tokens users2).map Prod.fst).Nodup)
    (h1 : dictGet T (user_tokens users1) = some tok1)
    (h2 : dictGet T (user_tokens users2) = some tok2)
    (hne : tok1 ≠ tok2) :
    T ∈ (update_bots (update_bots bots0 users1).1 users2).2.1 ∧
    T ∈ (update_bots (update_bots bots0 users1).1 users2).2.2 ∧
    ∀ p ∈ (update_bots (update_bots bots0 users1).1 users2).1,
      p.1 = T → p.2.token = tok2 := by
  have hT1 : T ∈ (update_bots bots0 users1).1.map Prod.fst :=
    (update_bots_keys bots0 users1 T).mpr
      ((mem_keys_iff T (user_tokens users1)).mpr ⟨tok1, dictGet_mem h1⟩)
  obtain ⟨bt, hbt⟩ := (mem_keys_iff T (update_bots bots0 users1).1).mp hT1
  have htok1 : bt.token = tok1 := by
    have h := update_bots_tokens bots0 users1 hnd1 (T, bt) hbt
    rw [h1] at h
    exact (Option.some_injective _ h).symm
  have holdtok : ∀ bt' : BotThread, (T, bt') ∈ (update_bots bots0 users1).1 →
      bt'.token = tok1 := by
    intro bt' hbt'
    have h := update_bots_tokens bots0 users1 hnd1 (T, bt') hbt'
    rw [h1] at h
    exact (Option.some_injective _ h).symm
  refine ⟨?_, ?_, ?_⟩
  · refine (mem_stopped_iff _ users2 T).mpr ⟨bt, hbt, ?_⟩
    rw [h2, htok1]
    intro hc
    exact hne (Option.some_injective _ hc).symm
  · refine (mem_started_iff _ users2 T).mpr ⟨?_, ?_⟩
    · rintro ⟨bt', hbt', hc⟩
      rw [h2, holdtok bt' hbt'] at hc
      exact hne (Option.some_injective _ hc).symm
    · exact (mem_keys_iff T (user_tokens users2)).mpr ⟨tok2, dictGet_mem h2⟩
  · intro p hp hpT
    have h := update_bots_tokens _ users2 hnd2 p hp
    rw [hpT, h2] at h
    exact (Option.some_injective _ h).symm

/-- Witness for C2: tenant 1's token changes from "a" to "z" between the two
cycles; the second cycle stops and restarts tenant 1. -/
theorem token_change_restart_witness :
    (dictGet 1 (user_tokens [⟨1, some "a", none⟩]) = some "a" ∧
      dictGet 1 (user_tokens [⟨1, some "z", none⟩]) = some "z" ∧
      "a" ≠ "z") ∧
    (1 ∈ (update_bots (update_bots [] [⟨1, some "a", none⟩]).1
        [⟨1, some "z", none⟩]).2.1 ∧
      1 ∈ (update_bots (update_bots [] [⟨1, some "a", none⟩]).1
        [⟨1, some "z", none⟩]).2.2) :=
  ⟨⟨by decide, by decide, by decide⟩,
   ⟨(token_change_restart [] [⟨1, some "a", none⟩] [⟨1, some "z", none⟩] 1 "a" "z"
       (by decide) (by decide) (by decide) (by decide) (by decide)).1,
    (token_change_restart [] [⟨1, some "a", none⟩] [⟨1, some "z", none⟩] 1 "a" "z"
       (by decide) (by decide) (by decide) (by decide) (by decide)).2.1⟩⟩

/-- C3: for an inbound non-empty text message, if the user row fetched for the
worker's tenant id has a configured system prompt, `handle_message` makes
exactly one completion call (with the message text and that prompt) and sends
exactly one reply whose text is that call's result; if the row's prompt is
unset, it makes zero completion calls and sends exactly the fixed
not-configured reply. -/
theorem message_reply_property (db : List UserRec)
    (api : String → String → Except String String) (uid : Nat) (upd : TgUpdate)
    (m : TgMessage) (t : String) (user : UserRec)
    (hm : upd.message = some m) (ht : m.text = some t) (hne : t ≠ "")
    (hu : db.find? (fun u => u.id == uid) = some user) :
    (∀ sp, user.system_prompt = some sp →
      handle_message db api uid upd =
        ⟨[(t, sp)], [get_yandex_gpt_response api t sp]⟩) ∧
    (user.system_prompt = none →
      handle_message db api uid upd = ⟨[], [notConfiguredMsg]⟩) := by
  constructor
  · intro sp hsp
    simp [handle_message, hm, ht, hne, hu, hsp]
  · intro hsp
    simp [handle_message, hm, ht, hne, hu, hsp]

/-- Witness for C3: a concrete message to a tenant with prompt "sys" yields
one completion call and one reply carrying its result. -/
theorem message_reply_property_witness :
    handle_message [⟨1, some "tk", some "sys"⟩] (fun p s => Except.ok (p ++ s)) 1
        ⟨some ⟨some "hi"⟩⟩ =
      ⟨[("hi", "sys")],
       [get_yandex_gpt_response (fun p s => Except.ok (p ++ s)) "hi" "sys"]⟩ :=
  (message_reply_property [⟨1, some "tk", some "sys"⟩] (fun p s => Except.ok (p ++ s)) 1
      ⟨some ⟨some "hi"⟩⟩ ⟨some "hi"⟩ "hi" ⟨1, some "tk", some "sys"⟩
      rfl rfl (by decide) (by decide)).1 "sys" rfl

/-- C6: with a configured prompt, when the completion collaborator fails the
wrapper returns the fixed degraded-answer string (the exception is swallowed
inside `get_yandex_gpt_response`), the worker sends exactly that one reply,
and the receive loop still handles every queued update — a per-message failure
never terminates the loop. -/
theorem completion_failure_isolated (db : List UserRec)
    (api : String → String → Except String String) (uid : Nat) (upd : TgUpdate)
    (m : TgMessage) (t : String) (user : UserRec) (sp e : String)
    (hm : upd.message = some m) (ht : m.text = some t) (hne : t ≠ "")
    (hu : db.find? (fun u => u.id == uid) = some user)
    (hsp : user.system_prompt = some sp)
    (herr : api t sp = Except.error e) :
    get_yandex_gpt_response api t sp = degradedAnswer ∧
    (handle_message db api uid upd).replies = [degradedAnswer] ∧
    ∀ updates : List TgUpdate,
      (processUpdates db api uid updates).length = updates.length := by
  refine ⟨?_, ?_, ?_⟩
  · simp [get_yandex_gpt_response, herr]
  · simp [handle_message, hm, ht, hne, hu, hsp, get_yandex_gpt_response, herr]
  · intro updates
    simp [processUpdates]

/-- Witness for C6: an always-failing completion collaborator produces the
degraded reply and the loop length is preserved on a 3-update queue. -/
theorem completion_failure_isolated_witness :
    ((fun _ _ => (Except.error "boom" : Except String String)) "hi" "sys" =
      Except.error "boom") ∧
    (handle_message [⟨1, some "tk", some "sys"⟩]
        (fun _ _ => Except.error "boom") 1 ⟨some ⟨some "hi"⟩⟩).replies =
      [degradedAnswer] ∧
    (processUpdates [⟨1, some "tk", some "sys"⟩] (fun _ _ => Except.error "boom") 1
        [⟨some ⟨some "hi"⟩⟩, ⟨none⟩, ⟨some ⟨none⟩⟩]).length = 3 :=
  ⟨rfl,
   (completion_failure_isolated [⟨1, some "tk", some "sys"⟩]
      (fun _ _ => Except.error "boom") 1 ⟨some ⟨some "hi"⟩⟩ ⟨some "hi"⟩ "hi"
      ⟨1, some "tk", some "sys"⟩ "sys" "boom" rfl rfl (by decide) (by decide) rfl
      rfl).2.1,
   (completion_failure_isolated [⟨1, some "tk", some "sys"⟩]
      (fun _ _ => Except.error "boom") 1 ⟨some ⟨some "hi"⟩⟩ ⟨some "hi"⟩ "hi"
      ⟨1, some "tk", some "sys"⟩ "sys" "boom" rfl rfl (by decide) (by decide) rfl
      rfl).2.2 [⟨some ⟨some "hi"⟩⟩, ⟨none⟩, ⟨some ⟨none⟩⟩]⟩

/-- C10: if no user row exists at all for the worker's tenant id, a non-empty
text message yields zero completion calls and exactly the fixed
not-configured reply — the same observable result as a row with an unset
prompt, and `handle_message` still returns normally. -/
theorem absent_user_not_configured (db : List UserRec)
    (api : String → String → Except String String) (uid : Nat) (upd : TgUpdate)
    (m : TgMessage) (t : String)
    (hm : upd.message = some m) (ht : m.text = some t) (hne : t ≠ "")
    (hu : db.find? (fun u => u.id == uid) = none) :
    handle_message db api uid upd = ⟨[], [notConfiguredMsg]⟩ ∧
    ∀ user : UserRec, user.id = uid → user.system_prompt = none →
      handle_message db api uid upd = handle_message [user] api uid upd := by
  have habs : handle_message db api uid upd = ⟨[], [notConfiguredMsg]⟩ := by
    simp [handle_message, hm, ht, hne, hu]
  refine ⟨habs, ?_⟩
  intro user hid hsp
  rw [habs]
  have hfind : List.find? (fun u => u.id == uid) [user] = some user := by
    simp [List.find?, hid]
  simp [handle_message, hm, ht, hne, hfind, hsp]

/-- Witness for C10: an empty user table gives the not-configured reply, equal
to the reply of a table whose only row has no prompt. -/
theorem absent_user_not_configured_witness :
    handle_message [] (fun p s => Except.ok (p ++ s)) 1 ⟨some ⟨some "hi"⟩⟩ =
      ⟨[], [notConfiguredMsg]⟩ ∧
    handle_message [] (fun p s => Except.ok (p ++ s)) 1 ⟨some ⟨some "hi"⟩⟩ =
      handle_message [⟨1, some "tk", none⟩] (fun p s => Except.ok (p ++ s)) 1
        ⟨some ⟨some "hi"⟩⟩ :=
  ⟨(absent_user_not_configured [] (fun p s => Except.ok (p ++ s)) 1
      ⟨some ⟨some "hi"⟩⟩ ⟨some "hi"⟩ "hi" rfl rfl (by decide) rfl).1,
   (absent_user_not_configured [] (fun p s => Except.ok (p ++ s)) 1
      ⟨some ⟨some "hi"⟩⟩ ⟨some "hi"⟩ "hi" rfl rfl (by decide) rfl).2
     ⟨1, some "tk", none⟩ rfl rfl⟩

/-! ### `stopLoop` lemmas -/

theorem stopLoop_all (joins : Nat → Bool) (tokens : List (Nat × String)) :
    ∀ bots : List (Nat × BotThread),
      (∀ p ∈ bots, dictGet p.1 tokens = some p.2.token ∨ joins p.1 = true) →
      stopLoop joins tokens bots =
        some (bots.filter fun p => decide (dictGet p.1 tokens = some p.2.token),
              (bots.filter fun p => !decide (dictGet p.1 tokens = some p.2.token)).map
                Prod.fst) := by
  intro bots
  induction bots with
  | nil => intro _; rfl
  | cons p rest ih =>
    intro hall
    have hrest := ih fun q hq => hall q (List.mem_cons_of_mem _ hq)
    by_cases hc : dictGet p.1 tokens = some p.2.token
    · simp [stopLoop, hc, hrest, List.filter_cons]
    · rcases hall p (List.mem_cons_self _ _) with h | h
      · exact absurd h hc
      · simp [stopLoop, hc, h, hrest, List.filter_cons]

theorem stopLoop_blocked (joins : Nat → Bool) (tokens : List (Nat × String)) :
    ∀ bots : List (Nat × BotThread),
      (∃ p ∈ bots, ¬ dictGet p.1 tokens = some p.2.token ∧ joins p.1 = false) →
      stopLoop joins tokens bots = none := by
  intro bots
  induction bots with
  | nil => rintro ⟨p, hp, _⟩; simp at hp
  | cons p rest ih =>
    rintro ⟨q, hq, hqc, hqj⟩
    rcases List.mem_cons.mp hq with rfl | hq'
    · simp [stopLoop, hqc, hqj]
    · have hrest := ih ⟨q, hq', hqc, hqj⟩
      by_cases hc : dictGet p.1 tokens = some p.2.token
      · simp [stopLoop, hc, hrest]
      · by_cases hj : joins p.1
        · simp [stopLoop, hc, hj, hrest]
        · simp [stopLoop, hc, hj]

/-- C7 counterexample: worker 1's thread has terminated (`alive = false`)
while tenant 1 stays desired with an unchanged token; the next cycle stops
nothing and starts nothing — the dead worker is not restarted and its entry
stays in the registry, because `update_bots` compares only tokens and
`BotThread.run` only logs on an unexpected error, reporting nothing to the
manager. -/
theorem dead_worker_cycle_cex :
    (⟨"tok", 1, false⟩ : BotThread).alive = false ∧
    update_bots [(1, ⟨"tok", 1, false⟩)] [⟨1, some "tok", none⟩] =
      ([(1, ⟨"tok", 1, false⟩)], [], []) ∧
    runExitEvents 1 (Except.error "disconnect") =
      [RunEvent.log "Ошибка в боте 1: disconnect"] := by
  refine ⟨rfl, by decide, by decide⟩

/-- C7 amended: when a worker's receive loop terminates with an unexpected
internal error, `BotThread.run` only logs — no notification reaches the
manager — and, the registry holding only the thread's token, a reconciliation
cycle whose desired token for that tenant is unchanged keeps the dead entry
and neither stops nor starts the tenant, regardless of the thread's `alive`
state. -/
theorem worker_death_only_logged (bots : List (Nat × BotThread)) (users : List UserRec)
    (uid : Nat) (bt : BotThread) (outcome : Except String Unit)
    (hmem : (uid, bt) ∈ bots)
    (hnd : (bots.map Prod.fst).Nodup)
    (htok : dictGet uid (user_tokens users) = some bt.token) :
    (∀ n, RunEvent.notifySupervisor n ∉ runExitEvents uid outcome) ∧
    (uid, bt) ∈ (update_bots bots users).1 ∧
    uid ∉ (update_bots bots users).2.1 ∧
    uid ∉ (update_bots bots users).2.2 := by
  refine ⟨?_, update_bots_mem_kept bots users uid bt hmem htok, ?_, ?_⟩
  · intro n
    cases outcome <;> simp [runExitEvents]
  · rw [mem_stopped_iff]
    rintro ⟨bt', hbt', hne⟩
    have h1 := dictGet_of_mem_nodup hnd hmem
    have h2 := dictGet_of_mem_nodup hnd hbt'
    rw [h1] at h2
    cases Option.some_injective _ h2
    exact hne htok
  · rw [mem_started_iff]
    rintro ⟨hnex, _⟩
    exact hnex ⟨bt, hmem, htok⟩

/-- Witness for the amended C7: the dead worker of `dead_worker_cycle_cex`
survives the cycle untouched. -/
theorem worker_death_only_logged_witness :
    ((1, (⟨"tok", 1, false⟩ : BotThread)) ∈ [(1, (⟨"tok", 1, false⟩ : BotThread))] ∧
      dictGet 1 (user_tokens [⟨1, some "tok", none⟩]) =
        some (⟨"tok", 1, false⟩ : BotThread).token) ∧
    (1, (⟨"tok", 1, false⟩ : BotThread)) ∈
      (update_bots [(1, ⟨"tok", 1, false⟩)] [⟨1, some "tok", none⟩]).1 :=
  ⟨⟨by decide, by decide⟩,
   (worker_death_only_logged [(1, ⟨"tok", 1, false⟩)] [⟨1, some "tok", none⟩] 1
      ⟨"tok", 1, false⟩ (Except.error "disconnect") (by decide) (by decide)
      (by decide)).2.1⟩

/-- C8 counterexample: tenant 1's worker must be stopped (the desired state is
empty) but its thread never terminates; because `update_bots` calls
`thread.join()` with no timeout argument, the cycle blocks forever (modelled
as `none`) instead of logging, removing the entry and proceeding. -/
theorem join_without_timeout_cex :
    update_botsJ (fun _ => false) [(1, ⟨"tok", 1, true⟩)] [] = none := by decide

/-- C8 amended: `stop()` signals shutdown (catching and logging its own
errors) and the manager then joins the worker thread with NO timeout: when
every to-be-stopped worker's thread terminates, the cycle completes with
exactly the `update_bots` result (entries removed); when some to-be-stopped
worker's thread never terminates, the reconciliation cycle blocks
indefinitely. -/
theorem stop_join_behavior (joins : Nat → Bool) (bots : List (Nat × BotThread))
    (users : List UserRec) :
    ((∀ p ∈ bots, dictGet p.1 (user_tokens users) = some p.2.token ∨ joins p.1 = true) →
      update_botsJ joins bots users = some (update_bots bots users)) ∧
    ((∃ p ∈ bots, ¬ dictGet p.1 (user_tokens users) = some p.2.token ∧ joins p.1 = false) →
      update_botsJ joins bots users = none) := by
  constructor
  · intro hall
    simp only [update_botsJ]
    rw [stopLoop_all joins (user_tokens users) bots hall]
    rw [update_bots_def]
  · intro hex
    simp only [update_botsJ]
    rw [stopLoop_blocked joins (user_tokens users) bots hex]

/-- Witness for the amended C8: with a terminating worker thread the cycle
completes and agrees with `update_bots`. -/
theorem stop_join_behavior_witness :
    update_botsJ (fun _ => true) [(1, ⟨"tok", 1, true⟩)] [] =
      some (update_bots [(1, ⟨"tok", 1, true⟩)] []) :=
  (stop_join_behavior (fun _ => true) [(1, ⟨"tok", 1, true⟩)] []).1 (by decide)

/-- C9 counterexample: with `update_bots` taking 5 time units, the gap between
the first two cycle starts is 15, not 10 — `time.sleep(10)` runs between cycle
end and next cycle start, so the period between starts is not fixed at 10. -/
theorem cycle_period_cex :
    cycleStart (fun _ => 5) 1 - cycleStart (fun _ => 5) 0 ≠ 10 := by decide

/-- C9 amended: `BotManager.run` drives `update_bots` forever, sleeping 10
time units after each cycle ends: consecutive cycle starts are separated by
that cycle's duration plus 10, and cycles never overlap (each cycle ends
strictly before the next starts). -/
theorem cycle_spacing (d : Nat → Nat) (n : Nat) :
    cycleStart d (n + 1) = cycleStart d n + d n + 10 ∧
    cycleStart d n + d n < cycleStart d (n + 1) := by
  constructor
  · rfl
  · simp only [cycleStart]
    omega

end YagptBot
